import Mathlib

/-!
Verification development for the msfile repository (package fcompare).

The Go source in fcompare.go is shallowly embedded: file contents are
lists of byte values, times are whole seconds (Int), and every system
call that the code checks for failure gets an explicit fault-injection
flag in the model. Go control flow is translated as follows: a normal
return of (value, error) becomes an Outcome value; log.Fatal, which
terminates the process and skips deferred calls, becomes the fatal
outcome; a Go runtime panic (out-of-range slice index) becomes the
panicked outcome. SHA-256 (crypto/sha256) and lowercase hex encoding
(encoding/hex) are implemented concretely over byte lists.
-/

set_option autoImplicit false

namespace Fcompare

/-! ## SHA-256 (crypto/sha256) and hex encoding (encoding/hex) -/

/-- Truncate to a 32-bit word, as Go uint32 arithmetic does. -/
def w32 (n : Nat) : Nat := n % 4294967296

/-- Rotate a 32-bit word right by n bit positions. -/
def rotr (x n : Nat) : Nat := w32 ((x >>> n) ||| (x <<< (32 - n)))

def shaCh (x y z : Nat) : Nat := (x &&& y) ^^^ ((x ^^^ 4294967295) &&& z)

def shaMaj (x y z : Nat) : Nat := (x &&& y) ^^^ (x &&& z) ^^^ (y &&& z)

def bigSigma0 (x : Nat) : Nat := (rotr x 2) ^^^ (rotr x 13) ^^^ (rotr x 22)

def bigSigma1 (x : Nat) : Nat := (rotr x 6) ^^^ (rotr x 11) ^^^ (rotr x 25)

def smallSigma0 (x : Nat) : Nat := (rotr x 7) ^^^ (rotr x 18) ^^^ (x >>> 3)

def smallSigma1 (x : Nat) : Nat := (rotr x 17) ^^^ (rotr x 19) ^^^ (x >>> 10)

/-- The 64 SHA-256 round constants of FIPS 180-4, written in decimal. -/
def sha256K : List Nat :=
  [1116352408, 1899447441, 3049323471, 3921009573, 961987163,
   1508970993, 2453635748, 2870763221, 3624381080, 310598401,
   607225278, 1426881987, 1925078388, 2162078206, 2614888103,
   3248222580, 3835390401, 4022224774, 264347078, 604807628,
   770255983, 1249150122, 1555081692, 1996064986, 2554220882,
   2821834349, 2952996808, 3210313671, 3336571891, 3584528711,
   113926993, 338241895, 666307205, 773529912, 1294757372,
   1396182291, 1695183700, 1986661051, 2177026350, 2456956037,
   2730485921, 2820302411, 3259730800, 3345764771, 3516065817,
   3600352804, 4094571909, 275423344, 430227734, 506948616,
   659060556, 883997877, 958139571, 1322822218, 1537002063,
   1747873779, 1955562222, 2024104815, 2227730452, 2361852424,
   2428436474, 2756734187, 3204031479, 3329325298]

/-- The eight initial SHA-256 hash words, written in decimal. -/
def sha256H0 : List Nat :=
  [1779033703, 3144134277, 1013904242, 2773480762, 1359893119,
   2600822924, 528734635, 1541459225]

/-- Group bytes into big-endian 32-bit words. -/
def bytesToWords : List Nat → List Nat
  | b0 :: b1 :: b2 :: b3 :: rest =>
      (((b0 * 256 + b1) * 256 + b2) * 256 + b3) :: bytesToWords rest
  | _ => []

/-- Message-schedule extension, keeping the schedule words most recent first. -/
def schedExt (l : List Nat) : Nat → List Nat
  | 0 => l
  | n + 1 =>
      let l2 := schedExt l n
      w32 (smallSigma1 (l2.getD 1 0) + l2.getD 6 0 + smallSigma0 (l2.getD 14 0) + l2.getD 15 0) :: l2

/-- Extend the 16 words of a block to the 64 schedule words. -/
def schedule (ws : List Nat) : List Nat := (schedExt ws.reverse 48).reverse

/-- One SHA-256 compression round on the eight working variables. -/
def sha256Round (st : List Nat) (kw : Nat × Nat) : List Nat :=
  match st with
  | [a, b, c, d, e, f, g, h] =>
      let t1 := w32 (h + bigSigma1 e + shaCh e f g + kw.1 + kw.2)
      let t2 := w32 (bigSigma0 a + shaMaj a b c)
      [w32 (t1 + t2), a, b, c, w32 (d + t1), e, f, g]
  | other => other

/-- Compress one 64-byte block into the hash state. -/
def processBlock (H : List Nat) (block : List Nat) : List Nat :=
  let st := (sha256K.zip (schedule (bytesToWords block))).foldl sha256Round H
  (H.zip st).map (fun p => w32 (p.1 + p.2))

/-- Big-endian 8-byte encoding of the bit length, used by the padding. -/
def lenBytes (n : Nat) : List Nat :=
  [(n >>> 56) % 256, (n >>> 48) % 256, (n >>> 40) % 256, (n >>> 32) % 256,
   (n >>> 24) % 256, (n >>> 16) % 256, (n >>> 8) % 256, n % 256]

/-- SHA-256 padding: append 0x80, zeros to 56 mod 64, then the bit length. -/
def sha256Pad (msg : List Nat) : List Nat :=
  msg ++ 128 :: (List.replicate ((119 - (msg.length % 64)) % 64) 0 ++ lenBytes (8 * msg.length))

/-- Split a padded message into 64-byte blocks. -/
def toBlocks : List Nat → List (List Nat)
  | [] => []
  | x :: xs => ((x :: xs).take 64) :: toBlocks ((x :: xs).drop 64)
termination_by l => l.length
decreasing_by simp [List.length_drop]; omega

/-- Big-endian bytes of one 32-bit word. -/
def wordBytes (w : Nat) : List Nat :=
  [(w >>> 24) % 256, (w >>> 16) % 256, (w >>> 8) % 256, w % 256]

/-- SHA-256 digest of a byte list, as the list of 32 digest bytes. -/
def sha256 (msg : List Nat) : List Nat :=
  ((toBlocks (sha256Pad msg)).foldl processBlock sha256H0).flatMap wordBytes

/-- Lowercase hex digit, as encoding/hex produces. -/
def hexDigit (n : Nat) : Char :=
  if n < 10 then Char.ofNat (48 + n) else Char.ofNat (87 + n)

/-- Embedding of hex.EncodeToString over a byte list. -/
def hexEncode (bs : List Nat) : String :=
  String.mk (bs.flatMap (fun b => [hexDigit (b / 16), hexDigit (b % 16)]))

/-! ## The OS model: files, handles, outcomes -/

/-- How an embedded Go call ends: a normal return carrying a value, a
returned Go error value, process termination through log.Fatal, or a
runtime panic. -/
inductive Outcome (α : Type) where
  | ok (a : α)
  | err (e : String)
  | fatal (e : String)
  | panicked (e : String)
deriving DecidableEq

/-- Model of one file as seen through the OS interface: content bytes,
access and modification times in whole seconds, and one fault-injection
flag per class of system call the source checks: os.Stat, os.Open,
reads (io.Copy and io.CopyN), f.Seek, and atime.Stat. -/
structure FileSt where
  data : List Nat
  atimeFS : Int
  mtimeFS : Int
  statErr : Bool
  openErr : Bool
  readErr : Bool
  seekErr : Bool
  atimeStatErr : Bool
deriving DecidableEq

/-- An open file handle: the content together with the read position;
os.Open yields position 0. -/
structure Handle where
  data : List Nat
  pos : Nat
deriving DecidableEq

/-- Embedding of io.Copy from a handle: stream everything from the
current position to the end of the file. -/
def copyAll (h : Handle) : List Nat × Handle :=
  (h.data.drop h.pos, { h with pos := h.data.length })

/-- Embedding of io.CopyN: copy exactly n bytes; io.CopyN reports an
error (io.EOF) when fewer than n bytes were available. -/
def copyN (h : Handle) (n : Nat) : Option (List Nat) × Handle :=
  if h.data.length < h.pos + n then (none, { h with pos := h.data.length })
  else (some ((h.data.drop h.pos).take n), { h with pos := h.pos + n })

/-- Embedding of f.Seek to an absolute offset; Go reports an error for a
negative resulting offset. -/
def seek (h : Handle) (off : Int) : Option Unit × Handle :=
  if off < 0 then (none, h) else (some (), { h with pos := off.toNat })

/-- The 16 MiB threshold below which the partial checksum is the
checksum of the whole file. -/
def minPartialChecksumSize : Nat := 16 * 1024 * 1024

/-! ## GetPartialChecksum and GetChecksum

Reading a file makes the OS record an access; the model makes this
explicit by stamping the access time with the current instant as soon
as the opened file is read. A failed os.Open is log.Fatal in the
source and therefore a fatal outcome here. -/

/-- Embedding of GetPartialChecksum: stat for the size; open; for a file
of at most minPartialChecksumSize bytes hash the whole content (isFull
true); otherwise feed one running SHA-256 with the first 1 MiB, then
seek to the middle offset (half the size rounded down to a 1 MiB
boundary) and feed 1 MiB, then seek to 1 MiB before the end and feed
the rest. -/
def GetPartialChecksum (st : FileSt) (now : Int) : Outcome (String × Bool) × FileSt :=
  if st.statErr then (Outcome.err "stat failed", st) else
  let filesize := st.data.length
  if st.openErr then (Outcome.fatal "open failed", st) else
  let st1 := { st with atimeFS := now }
  let h0 : Handle := { data := st.data, pos := 0 }
  if filesize ≤ minPartialChecksumSize then
    if st.readErr then (Outcome.err "read failed", st1) else
    (Outcome.ok (hexEncode (sha256 (copyAll h0).1), true), st1)
  else
    if st.readErr then (Outcome.err "read failed", st1) else
    match copyN h0 (1024 * 1024) with
    | (none, _) => (Outcome.err "unexpected EOF", st1)
    | (some b1, h1) =>
      if st.seekErr then (Outcome.err "seek failed", st1) else
      let filemid := filesize / 2
      let filemid2 := filemid - filemid % (1024 * 1024)
      match seek h1 (filemid2 : Int) with
      | (none, _) => (Outcome.err "bad seek", st1)
      | (some _, h2) =>
        match copyN h2 (1024 * 1024) with
        | (none, _) => (Outcome.err "unexpected EOF", st1)
        | (some b2, h3) =>
          match seek h3 ((filesize : Int) - 1024 * 1024) with
          | (none, _) => (Outcome.err "bad seek", st1)
          | (some _, h4) =>
            (Outcome.ok (hexEncode (sha256 (b1 ++ b2 ++ (copyAll h4).1)), false), st1)

/-- Embedding of GetChecksum: open the file and stream its entire
content through SHA-256; a failed os.Open is log.Fatal in the source. -/
def GetChecksum (st : FileSt) (now : Int) : Outcome String × FileSt :=
  if st.openErr then (Outcome.fatal "open failed", st) else
  let st1 := { st with atimeFS := now }
  if st.readErr then (Outcome.err "read failed", st1) else
  (Outcome.ok (hexEncode (sha256 (copyAll { data := st.data, pos := 0 }).1)), st1)

/-! ## processFile and CompareFiles -/

/-- The compare methods CmpSize, CmpPartial, CmpFull. -/
inductive CompareMethod where
  | CmpSize
  | CmpPartial
  | CmpFull
deriving DecidableEq

/-- Embedding of processFile: read the access time (log.Fatal on
failure) and stat for the modification time (error return on failure),
then, with keepATime set, register the deferred os.Chtimes restoring the
captured pair; the deferred restore runs on every function return but
not on log.Fatal, which exits the process without running defers. -/
def processFile (st : FileSt) (method : CompareMethod) (keepATime : Bool) (now : Int) :
    Outcome String × FileSt :=
  if st.atimeStatErr then (Outcome.fatal "atime stat failed", st) else
  let atime := st.atimeFS
  if st.statErr then (Outcome.err "stat failed", st) else
  let mtime := st.mtimeFS
  let restore := fun (s : FileSt) =>
    if keepATime then { s with atimeFS := atime, mtimeFS := mtime } else s
  match method with
  | CompareMethod.CmpPartial =>
    match GetPartialChecksum st now with
    | (Outcome.ok sb, st2) => (Outcome.ok sb.1, restore st2)
    | (Outcome.err e, st2) => (Outcome.err e, restore st2)
    | (Outcome.fatal e, st2) => (Outcome.fatal e, st2)
    | (Outcome.panicked e, st2) => (Outcome.panicked e, st2)
  | CompareMethod.CmpSize => (Outcome.ok (toString st.data.length), restore st)
  | CompareMethod.CmpFull =>
    match GetChecksum st now with
    | (Outcome.ok s, st2) => (Outcome.ok s, restore st2)
    | (Outcome.err e, st2) => (Outcome.err e, restore st2)
    | (Outcome.fatal e, st2) => (Outcome.fatal e, st2)
    | (Outcome.panicked e, st2) => (Outcome.panicked e, st2)

/-- Fault-injection environment for the temp-file probe of
TestKeepAtime: flags for the three fallible operations (os.CreateTemp,
os.Chtimes, atime.Stat) and the access time, in whole seconds, that the
re-read reports after the sentinel was set. -/
structure ProbeEnv where
  createTempErr : Bool
  chtimesErr : Bool
  atimeStatErr : Bool
  readBackAtime : Int
deriving DecidableEq

/-- Unix seconds of the sentinel instant 2000-01-01 00:00:00 UTC. -/
def probeSentinel : Int := 946684800

/-- Embedding of TestKeepAtime: create a temp file in the directory,
set its times to the sentinel, re-read the access time, and report
capable exactly when the re-read equals the sentinel at one-second
resolution; only the three filesystem operations produce errors. -/
def TestKeepAtime (p : ProbeEnv) : Except String Bool :=
  if p.createTempErr then Except.error "create temp failed" else
  if p.chtimesErr then Except.error "chtimes failed" else
  if p.atimeStatErr then Except.error "atime stat failed" else
  if probeSentinel ≠ p.readBackAtime then Except.ok false else
  Except.ok true

/-- How an embedded call to CompareFiles ends: a normal return with the
Go error value, log.Fatal, or a runtime panic. -/
inductive GoExit where
  | ret (err : Option String)
  | fatal (e : String)
  | panicked (e : String)
deriving DecidableEq

/-- Insertion into the fis map (Go map from checksum string to index
slice, extended with append). Go map iteration order is unspecified;
the model fixes first-insertion order, which the spec leaves open. -/
def fisInsert (fis : List (String × List Nat)) (k : String) (i : Nat) :
    List (String × List Nat) :=
  match fis with
  | [] => [(k, [i])]
  | (k2, v) :: rest =>
    if k2 = k then (k2, v ++ [i]) :: rest
    else (k2, v) :: fisInsert rest k i

/-- The loop of CompareFiles over the remaining paths, carrying the
running index and the fis map; the first failing processFile aborts.
File-state updates made by processFile never change content or fault
flags, hence never change a later outcome, so the environment is not
threaded. -/
def compareLoop (env : String → FileSt) (method : CompareMethod)
    (keepATime : Bool) (now : Int) :
    List String → Nat → List (String × List Nat) →
    Outcome (List (String × List Nat))
  | [], _, fis => Outcome.ok fis
  | fn :: rest, i, fis =>
    match (processFile (env fn) method keepATime now).1 with
    | Outcome.ok s => compareLoop env method keepATime now rest (i + 1) (fisInsert fis s i)
    | Outcome.err e => Outcome.err e
    | Outcome.fatal e => Outcome.fatal e
    | Outcome.panicked e => Outcome.panicked e

/-- The fingerprint-and-group phase of CompareFiles: the loop, then the
group lists of the fis map; on a loop error the groups slice is still
nil, so the pair returned is the empty list with the error. -/
def runLoop (env : String → FileSt) (fns : List String) (method : CompareMethod)
    (keepATime : Bool) (now : Int) : List (List Nat) × GoExit :=
  match compareLoop env method keepATime now fns 0 [] with
  | Outcome.ok fis => (fis.map Prod.snd, GoExit.ret none)
  | Outcome.err e => ([], GoExit.ret (some e))
  | Outcome.fatal e => ([], GoExit.fatal e)
  | Outcome.panicked e => ([], GoExit.panicked e)

/-- Embedding of CompareFiles: with checkKeepAtime set the probe runs
on fns[0] (a Go runtime panic when the list is empty); a probe error or
a not-capable probe aborts before any fingerprinting; otherwise the
files are fingerprinted in order and grouped by equal fingerprint. -/
def CompareFiles (env : String → FileSt) (probe : String → ProbeEnv)
    (fns : List String) (method : CompareMethod)
    (keepATime checkKeepAtime : Bool) (now : Int) :
    List (List Nat) × GoExit :=
  if checkKeepAtime then
    match fns with
    | [] => ([], GoExit.panicked "index out of range")
    | f0 :: _ =>
      match TestKeepAtime (probe f0) with
      | Except.error e => ([], GoExit.ret (some e))
      | Except.ok false => ([], GoExit.ret (some "cannot keep atime"))
      | Except.ok true => runLoop env fns method keepATime now
  else runLoop env fns method keepATime now

/-- The fingerprint outcome of the file at index i of the path list,
under the chosen method. -/
def fpAt (env : String → FileSt) (method : CompareMethod) (keepATime : Bool)
    (now : Int) (fns : List String) (i : Nat) : Outcome String :=
  (processFile (env (fns.getD i "")) method keepATime now).1

/-- The keys of the fis map, in insertion order. -/
def fisKeys (fis : List (String × List Nat)) : List String := fis.map Prod.fst

/-- All indices stored in the fis map. -/
def fisIdx (fis : List (String × List Nat)) : List Nat := (fis.map Prod.snd).flatten

/-! ## Concrete inputs used by witnesses and counterexamples -/

/-- A fault-free three-byte file. -/
def plainFile : FileSt :=
  { data := [1, 2, 3], atimeFS := 10, mtimeFS := 20, statErr := false,
    openErr := false, readErr := false, seekErr := false, atimeStatErr := false }

/-- A file whose os.Open fails. -/
def openFailFile : FileSt :=
  { data := [7], atimeFS := 1, mtimeFS := 2, statErr := false,
    openErr := true, readErr := false, seekErr := false, atimeStatErr := false }

/-- A file whose os.Stat fails. -/
def statFailFile : FileSt :=
  { data := [7], atimeFS := 1, mtimeFS := 2, statErr := true,
    openErr := false, readErr := false, seekErr := false, atimeStatErr := false }

/-- A fault-free file of 16 MiB plus one byte, strictly above the
partial-checksum threshold. -/
def bigFile : FileSt :=
  { data := List.replicate (16 * 1024 * 1024 + 1) 0, atimeFS := 10, mtimeFS := 20,
    statErr := false, openErr := false, readErr := false, seekErr := false,
    atimeStatErr := false }

/-- A probe environment whose operations all succeed but whose re-read
access time is not the sentinel. -/
def incapableProbe : ProbeEnv :=
  { createTempErr := false, chtimesErr := false, atimeStatErr := false,
    readBackAtime := 0 }

/-- The length of the big witness file, established without ever
materializing its content. -/
theorem bigFile_length : bigFile.data.length = 16 * 1024 * 1024 + 1 :=
  List.length_replicate _ _

/-! ## Helper lemmas about the fis map -/

theorem chain_append_one {v : List Nat} {i : Nat}
    (hc : List.Chain' (fun a b => a < b) v) (hlt : ∀ j ∈ v, j < i) :
    List.Chain' (fun a b => a < b) (v ++ [i]) := by
  rw [List.chain'_append]
  refine ⟨hc, List.chain'_singleton i, ?_⟩
  intro x hx y hy
  simp only [List.head?_cons, Option.mem_def, Option.some.injEq] at hy
  subst hy
  obtain ⟨h, rfl⟩ := List.mem_getLast?_eq_getLast hx
  exact hlt _ (List.getLast_mem h)

theorem fisInsert_cons_eq (k : String) (v : List Nat)
    (rest : List (String × List Nat)) (i : Nat) :
    fisInsert ((k, v) :: rest) k i = (k, v ++ [i]) :: rest := by
  simp [fisInsert]

theorem fisInsert_cons_ne (k2 k : String) (v : List Nat)
    (rest : List (String × List Nat)) (i : Nat) (h : k2 ≠ k) :
    fisInsert ((k2, v) :: rest) k i = (k2, v) :: fisInsert rest k i := by
  simp [fisInsert, h]

theorem fisKeys_insert (fis : List (String × List Nat)) (k : String) (i : Nat)
    (x : String) :
    x ∈ fisKeys (fisInsert fis k i) ↔ x ∈ fisKeys fis ∨ x = k := by
  induction fis with
  | nil => simp [fisInsert, fisKeys]
  | cons p rest ih =>
    obtain ⟨k2, v⟩ := p
    by_cases h : k2 = k
    · subst h
      rw [fisInsert_cons_eq]
      simp only [fisKeys, List.map_cons, List.mem_cons]
      tauto
    · rw [fisInsert_cons_ne k2 k v rest i h]
      simp only [fisKeys, List.map_cons, List.mem_cons] at ih ⊢
      rw [ih]
      tauto

theorem fisKeys_insert_nodup (fis : List (String × List Nat)) (k : String) (i : Nat)
    (h : (fisKeys fis).Nodup) : (fisKeys (fisInsert fis k i)).Nodup := by
  induction fis with
  | nil => simp [fisInsert, fisKeys]
  | cons p rest ih =>
    obtain ⟨k2, v⟩ := p
    simp only [fisKeys, List.map_cons, List.nodup_cons] at h
    by_cases hk : k2 = k
    · subst hk
      rw [fisInsert_cons_eq]
      simp only [fisKeys, List.map_cons, List.nodup_cons]
      exact h
    · rw [fisInsert_cons_ne k2 k v rest i hk]
      simp only [fisKeys, List.map_cons, List.nodup_cons]
      refine ⟨?_, ih h.2⟩
      intro hmem
      rcases (fisKeys_insert rest k i k2).mp hmem with hmem | hmem
      · exact h.1 hmem
      · exact hk hmem

theorem fisIdx_insert (fis : List (String × List Nat)) (k : String) (i : Nat) :
    List.Perm (fisIdx (fisInsert fis k i)) (i :: fisIdx fis) := by
  induction fis with
  | nil => simp [fisInsert, fisIdx]
  | cons p rest ih =>
    obtain ⟨k2, v⟩ := p
    by_cases h : k2 = k
    · subst h
      rw [fisInsert_cons_eq]
      simp only [fisIdx, List.map_cons, List.flatten_cons, List.append_assoc,
        List.singleton_append]
      exact List.perm_middle
    · rw [fisInsert_cons_ne k2 k v rest i h]
      simp only [fisIdx, List.map_cons, List.flatten_cons]
      exact (List.Perm.append_left v ih).trans List.perm_middle

/-- Loop invariant of the fis map: distinct keys, and every stored
group is nonempty, strictly increasing, bounded by the running index,
with every member carrying the fingerprint equal to the group key. -/
def FisInv (F : Nat → Outcome String) (bound : Nat)
    (fis : List (String × List Nat)) : Prop :=
  (fisKeys fis).Nodup ∧
  ∀ p ∈ fis, p.2 ≠ [] ∧ List.Chain' (fun a b => a < b) p.2 ∧
    ∀ j ∈ p.2, j < bound ∧ F j = Outcome.ok p.1

theorem fisInsert_entries (F : Nat → Outcome String) (i : Nat) (k : String)
    (fis : List (String × List Nat))
    (hinv : ∀ p ∈ fis, p.2 ≠ [] ∧ List.Chain' (fun a b => a < b) p.2 ∧
      ∀ j ∈ p.2, j < i ∧ F j = Outcome.ok p.1)
    (hk : F i = Outcome.ok k) :
    ∀ p ∈ fisInsert fis k i, p.2 ≠ [] ∧ List.Chain' (fun a b => a < b) p.2 ∧
      ∀ j ∈ p.2, j < i + 1 ∧ F j = Outcome.ok p.1 := by
  induction fis with
  | nil =>
    intro p hp
    simp only [fisInsert, List.mem_singleton] at hp
    subst hp
    refine ⟨by simp, List.chain'_singleton i, ?_⟩
    intro j hj
    simp only [List.mem_singleton] at hj
    subst hj
    exact ⟨Nat.lt_succ_self _, hk⟩
  | cons q rest ih =>
    obtain ⟨k2, v⟩ := q
    by_cases h : k2 = k
    · subst h
      rw [fisInsert_cons_eq]
      intro p hp
      rcases List.mem_cons.mp hp with rfl | hp
      · obtain ⟨hne, hch, hall⟩ := hinv (k2, v) (List.mem_cons_self _ _)
        refine ⟨by simp, chain_append_one hch (fun j hj => (hall j hj).1), ?_⟩
        intro j hj
        rcases List.mem_append.mp hj with hj | hj
        · exact ⟨Nat.lt_succ_of_lt (hall j hj).1, (hall j hj).2⟩
        · simp only [List.mem_singleton] at hj
          subst hj
          exact ⟨Nat.lt_succ_self _, hk⟩
      · obtain ⟨hne, hch, hall⟩ := hinv p (List.mem_cons_of_mem _ hp)
        exact ⟨hne, hch, fun j hj => ⟨Nat.lt_succ_of_lt (hall j hj).1, (hall j hj).2⟩⟩
    · rw [fisInsert_cons_ne k2 k v rest i h]
      intro p hp
      rcases List.mem_cons.mp hp with rfl | hp
      · obtain ⟨hne, hch, hall⟩ := hinv (k2, v) (List.mem_cons_self _ _)
        exact ⟨hne, hch, fun j hj => ⟨Nat.lt_succ_of_lt (hall j hj).1, (hall j hj).2⟩⟩
      · exact ih (fun q hq => hinv q (List.mem_cons_of_mem _ hq)) p hp

/-- Master lemma for a successful run of the loop of CompareFiles: the
invariant advances over the processed paths and the stored indices grow
by exactly the processed index range. -/
theorem compareLoop_ok (env : String → FileSt) (method : CompareMethod)
    (keepATime : Bool) (now : Int) :
    ∀ (fns : List String) (i : Nat) (fis fis' : List (String × List Nat)),
    compareLoop env method keepATime now fns i fis = Outcome.ok fis' →
    ∀ F : Nat → Outcome String,
    (∀ t, t < fns.length →
      F (i + t) = (processFile (env (fns.getD t "")) method keepATime now).1) →
    FisInv F i fis →
    FisInv F (i + fns.length) fis' ∧
    List.Perm (fisIdx fis') (fisIdx fis ++ List.range' i fns.length) := by
  intro fns
  induction fns with
  | nil =>
    intro i fis fis' hloop F hF hinv
    simp only [compareLoop] at hloop
    cases hloop
    simpa using hinv
  | cons fn rest ih =>
    intro i fis fis' hloop F hF hinv
    cases hpf : (processFile (env fn) method keepATime now).1 with
    | ok s =>
      simp only [compareLoop, hpf] at hloop
      have hs : F i = Outcome.ok s := by
        have h0 := hF 0 (Nat.succ_pos rest.length)
        simpa [hpf] using h0
      have hF' : ∀ t, t < rest.length →
          F (i + 1 + t) = (processFile (env (rest.getD t "")) method keepATime now).1 := by
        intro t ht
        have h1 := hF (t + 1) (Nat.succ_lt_succ ht)
        have h2 : i + (t + 1) = i + 1 + t := by omega
        simpa [h2] using h1
      have hinv' : FisInv F (i + 1) (fisInsert fis s i) :=
        ⟨fisKeys_insert_nodup fis s i hinv.1, fisInsert_entries F i s fis hinv.2 hs⟩
      obtain ⟨hinv2, hperm⟩ := ih (i + 1) (fisInsert fis s i) fis' hloop F hF' hinv'
      constructor
      · have heq : i + 1 + rest.length = i + (fn :: rest).length := by
          simp only [List.length_cons]
          omega
        exact heq ▸ hinv2
      · have p1 : List.Perm (fisIdx fis')
            ((i :: fisIdx fis) ++ List.range' (i + 1) rest.length) :=
          hperm.trans (List.Perm.append_right _ (fisIdx_insert fis s i))
        have p2 : List.Perm ((i :: fisIdx fis) ++ List.range' (i + 1) rest.length)
            (fisIdx fis ++ i :: List.range' (i + 1) rest.length) := by
          simp only [List.cons_append]
          exact List.perm_middle.symm
        have p3 : fisIdx fis ++ i :: List.range' (i + 1) rest.length
            = fisIdx fis ++ List.range' i (fn :: rest).length := by
          simp [List.range'_succ]
        exact p3 ▸ (p1.trans p2)
    | err e =>
      simp only [compareLoop, hpf] at hloop
      cases hloop
    | fatal e =>
      simp only [compareLoop, hpf] at hloop
      cases hloop
    | panicked e =>
      simp only [compareLoop, hpf] at hloop
      cases hloop

/-- Master lemma for a failing run of the loop of CompareFiles: when
the first k files fingerprint fine and file k fails, the loop reports
that error, and already does so on the prefix of length k plus one. -/
theorem compareLoop_first_error (env : String → FileSt) (method : CompareMethod)
    (keepATime : Bool) (now : Int) :
    ∀ (fns : List String) (k i : Nat) (fis : List (String × List Nat)) (e : String),
    k < fns.length →
    (∀ j, j < k → ∃ s,
      (processFile (env (fns.getD j "")) method keepATime now).1 = Outcome.ok s) →
    (processFile (env (fns.getD k "")) method keepATime now).1 = Outcome.err e →
    compareLoop env method keepATime now fns i fis = Outcome.err e ∧
    compareLoop env method keepATime now (fns.take (k + 1)) i fis = Outcome.err e := by
  intro fns
  induction fns with
  | nil =>
    intro k i fis e hk
    simp at hk
  | cons fn rest ih =>
    intro k i fis e hk hbefore hfail
    cases k with
    | zero =>
      simp only [List.getD_cons_zero] at hfail
      refine ⟨?_, ?_⟩ <;> simp only [List.take_succ_cons, List.take_zero, compareLoop, hfail]
    | succ k2 =>
      obtain ⟨s, hs⟩ := hbefore 0 (Nat.succ_pos k2)
      simp only [List.getD_cons_zero] at hs
      have hb' : ∀ j, j < k2 → ∃ s,
          (processFile (env (rest.getD j "")) method keepATime now).1 = Outcome.ok s := by
        intro j hj
        have hj1 := hbefore (j + 1) (Nat.succ_lt_succ hj)
        simpa using hj1
      have hf' : (processFile (env (rest.getD k2 "")) method keepATime now).1
          = Outcome.err e := by
        simpa using hfail
      obtain ⟨h1, h2⟩ := ih k2 (i + 1) (fisInsert fis s i) e
        (by simpa using Nat.lt_of_succ_lt_succ hk) hb' hf'
      constructor
      · simp only [compareLoop, hs]
        exact h1
      · simp only [List.take_succ_cons, compareLoop, hs]
        exact h2

/-- State characterization of GetPartialChecksum: the modification time
is never touched; on the log.Fatal exit no byte has been read, so the
access time is still the original one; and it never panics. -/
theorem getPartial_state (st : FileSt) (now : Int) :
    (GetPartialChecksum st now).2.mtimeFS = st.mtimeFS ∧
    (∀ e, (GetPartialChecksum st now).1 = Outcome.fatal e →
      (GetPartialChecksum st now).2.atimeFS = st.atimeFS) ∧
    (∀ e, (GetPartialChecksum st now).1 ≠ Outcome.panicked e) := by
  unfold GetPartialChecksum
  by_cases h1 : st.statErr = true
  · simp [h1]
  by_cases h2 : st.openErr = true
  · simp [h1, h2]
  simp only [h1, h2, if_false, Bool.false_eq_true]
  repeat' split
  all_goals simp

/-- State characterization of GetChecksum, as for GetPartialChecksum. -/
theorem getChecksum_state (st : FileSt) (now : Int) :
    (GetChecksum st now).2.mtimeFS = st.mtimeFS ∧
    (∀ e, (GetChecksum st now).1 = Outcome.fatal e →
      (GetChecksum st now).2.atimeFS = st.atimeFS) ∧
    (∀ e, (GetChecksum st now).1 ≠ Outcome.panicked e) := by
  unfold GetChecksum
  repeat' split
  all_goals simp

/-! ## Claims -/

/-- C1: for every file of size at most 16 MiB whose stat, open and read
succeed, GetPartialChecksum returns exactly the hex digest that
GetChecksum returns for that file, and its isEquivalentToFull result is
true. -/
theorem partial_small_eq_full (st : FileSt) (now : Int)
    (hsize : st.data.length ≤ minPartialChecksumSize)
    (hs : st.statErr = false) (ho : st.openErr = false) (hr : st.readErr = false) :
    (GetPartialChecksum st now).1 = Outcome.ok (hexEncode (sha256 st.data), true) ∧
    (GetChecksum st now).1 = Outcome.ok (hexEncode (sha256 st.data)) := by
  constructor <;> simp [GetPartialChecksum, GetChecksum, copyAll, hs, ho, hr, hsize]

/-- Witness for C1 at a concrete three-byte file. -/
theorem partial_small_eq_full_witness :
    plainFile.data.length ≤ minPartialChecksumSize ∧
    (GetPartialChecksum plainFile 99).1 = Outcome.ok (hexEncode (sha256 plainFile.data), true) ∧
    (GetChecksum plainFile 99).1 = Outcome.ok (hexEncode (sha256 plainFile.data)) :=
  ⟨by decide, (partial_small_eq_full plainFile 99 (by decide) rfl rfl rfl).1,
    (partial_small_eq_full plainFile 99 (by decide) rfl rfl rfl).2⟩

/-- C2: for every file strictly larger than 16 MiB whose system calls
succeed, GetPartialChecksum is the hex SHA-256 digest of one running
hash fed, in order, with the first 1 MiB, then 1 MiB starting at half
the size rounded down to a 1 MiB boundary, then the final 1 MiB, and
its isEquivalentToFull result is false. -/
theorem partial_large_three_windows (st : FileSt) (now : Int)
    (hsize : minPartialChecksumSize < st.data.length)
    (hs : st.statErr = false) (ho : st.openErr = false)
    (hr : st.readErr = false) (hk : st.seekErr = false) :
    (GetPartialChecksum st now).1 = Outcome.ok
      (hexEncode (sha256 (st.data.take (1024 * 1024)
        ++ (st.data.drop (st.data.length / 2 - st.data.length / 2 % (1024 * 1024))).take (1024 * 1024)
        ++ st.data.drop (st.data.length - 1024 * 1024))), false) := by
  have hL : 16 * 1024 * 1024 < st.data.length := by
    simpa [minPartialChecksumSize] using hsize
  have hnle : ¬ (st.data.length ≤ minPartialChecksumSize) := Nat.not_le.mpr hsize
  have nc1 : ¬ (st.data.length < 0 + 1048576) := by omega
  have nc2 : ¬ (st.data.length <
      st.data.length / 2 - st.data.length / 2 % 1048576 + 1048576) := by omega
  have ns1 : ¬ ((↑(st.data.length / 2 - st.data.length / 2 % 1048576) : Int) < 0) := by omega
  have ns2 : ¬ ((st.data.length : Int) - 1048576 < 0) := by omega
  have ns2b : ¬ (st.data.length < 1048576) := by omega
  have htn1 : ((↑(st.data.length / 2 - st.data.length / 2 % 1048576) : Int)).toNat
      = st.data.length / 2 - st.data.length / 2 % 1048576 := by omega
  have htn2 : ((st.data.length : Int) - 1048576).toNat = st.data.length - 1048576 := by omega
  unfold GetPartialChecksum
  simp only [hs, ho, hr, hk, hnle, if_false, Bool.false_eq_true, ite_false]
  simp only [copyN, seek, copyAll, nc1, nc2, ns1, ns2, ns2b, htn1, htn2, ite_false,
    List.drop_zero]
  norm_num
  simp [ns2b, htn2]

/-- Witness for C2 at a concrete file of 16 MiB plus one zero byte. -/
theorem partial_large_three_windows_witness :
    minPartialChecksumSize < bigFile.data.length ∧
    (GetPartialChecksum bigFile 3).1 = Outcome.ok
      (hexEncode (sha256 (bigFile.data.take (1024 * 1024)
        ++ (bigFile.data.drop (bigFile.data.length / 2
              - bigFile.data.length / 2 % (1024 * 1024))).take (1024 * 1024)
        ++ bigFile.data.drop (bigFile.data.length - 1024 * 1024))), false) :=
  ⟨by rw [bigFile_length, minPartialChecksumSize]; norm_num,
   partial_large_three_windows bigFile 3
     (by rw [bigFile_length, minPartialChecksumSize]; norm_num) rfl rfl rfl rfl⟩

/-- C9: the Size method returns the byte length of the file as a
decimal string, independent of the content bytes, and leaves the file
state untouched: no content is read, the open, read and seek fault
flags are never consulted, and the times are unchanged. -/
theorem processFile_size_method (st : FileSt) (kA : Bool) (now : Int)
    (ha : st.atimeStatErr = false) (hs : st.statErr = false) :
    (processFile st CompareMethod.CmpSize kA now).1
      = Outcome.ok (toString st.data.length) ∧
    (processFile st CompareMethod.CmpSize kA now).2 = st := by
  cases st
  cases kA <;> simp_all [processFile]

/-- Witness for C9 at a concrete three-byte file. -/
theorem processFile_size_method_witness :
    plainFile.atimeStatErr = false ∧ plainFile.statErr = false ∧
    (processFile plainFile CompareMethod.CmpSize true 5).1
      = Outcome.ok (toString plainFile.data.length) :=
  ⟨rfl, rfl, (processFile_size_method plainFile true 5 rfl rfl).1⟩

/-- C10: CompareFiles with checkKeepAtime set and an empty path list is
not guarded: it indexes the first element of the empty list, which is a
Go runtime panic with an index-out-of-range error, not a returned error
value. -/
theorem compareFiles_empty_panics (env : String → FileSt) (probe : String → ProbeEnv)
    (method : CompareMethod) (keepATime : Bool) (now : Int) :
    CompareFiles env probe [] method keepATime true now
      = ([], GoExit.panicked "index out of range") := rfl

/-- C8: TestKeepAtime reports incapable as ok false, with no error,
when the re-read access time differs from the sentinel at one-second
resolution; it reports ok true when they match; and it returns an error
only when one of the underlying filesystem operations (creating the
temp file, setting its times, statting it) failed. -/
theorem testKeepAtime_incapable_not_error (p : ProbeEnv) :
    (p.createTempErr = false → p.chtimesErr = false → p.atimeStatErr = false →
      probeSentinel ≠ p.readBackAtime → TestKeepAtime p = Except.ok false) ∧
    (p.createTempErr = false → p.chtimesErr = false → p.atimeStatErr = false →
      probeSentinel = p.readBackAtime → TestKeepAtime p = Except.ok true) ∧
    (∀ e, TestKeepAtime p = Except.error e →
      p.createTempErr = true ∨ p.chtimesErr = true ∨ p.atimeStatErr = true) := by
  refine ⟨?_, ?_, ?_⟩
  · intro h1 h2 h3 h4
    simp [TestKeepAtime, h1, h2, h3, h4]
  · intro h1 h2 h3 h4
    simp [TestKeepAtime, h1, h2, h3, h4]
  · intro e he
    by_cases h1 : p.createTempErr = true
    · exact Or.inl h1
    by_cases h2 : p.chtimesErr = true
    · exact Or.inr (Or.inl h2)
    by_cases h3 : p.atimeStatErr = true
    · exact Or.inr (Or.inr h3)
    by_cases h4 : probeSentinel = p.readBackAtime <;>
      simp [TestKeepAtime, h1, h2, h3, h4] at he

/-- Witness for C8 at a concrete incapable probe environment. -/
theorem testKeepAtime_incapable_not_error_witness :
    incapableProbe.createTempErr = false ∧
    probeSentinel ≠ incapableProbe.readBackAtime ∧
    TestKeepAtime incapableProbe = Except.ok false :=
  ⟨rfl, by decide,
    (testKeepAtime_incapable_not_error incapableProbe).1 rfl rfl rfl (by decide)⟩

/-- C4 counterexample: a failed os.Open is not returned as an error
result; both checksum functions call log.Fatal there, which terminates
the process, and processFile propagates that termination. -/
theorem checksum_open_error_fatal :
    openFailFile.openErr = true ∧
    (GetPartialChecksum openFailFile 0).1 = Outcome.fatal "open failed" ∧
    (GetChecksum openFailFile 0).1 = Outcome.fatal "open failed" ∧
    (processFile openFailFile CompareMethod.CmpFull false 0).1
      = Outcome.fatal "open failed" := by
  refine ⟨rfl, ?_, ?_, ?_⟩ <;> decide

/-- C4 amended: stat, read and seek errors during fingerprinting are
returned as error results to the caller, and so is a stat error in
processFile; but a failed os.Open terminates the process through
log.Fatal in both checksum functions, as does a failed access-time stat
in processFile. -/
theorem checksum_error_propagation (st : FileSt) (now : Int)
    (method : CompareMethod) (kA : Bool) :
    (st.statErr = true → (GetPartialChecksum st now).1 = Outcome.err "stat failed") ∧
    (st.statErr = false → st.openErr = false → st.readErr = true →
      (GetPartialChecksum st now).1 = Outcome.err "read failed") ∧
    (st.statErr = false → st.openErr = false → st.readErr = false →
      st.seekErr = true → minPartialChecksumSize < st.data.length →
      (GetPartialChecksum st now).1 = Outcome.err "seek failed") ∧
    (st.openErr = false → st.readErr = true →
      (GetChecksum st now).1 = Outcome.err "read failed") ∧
    (st.statErr = false → st.openErr = true →
      (GetPartialChecksum st now).1 = Outcome.fatal "open failed") ∧
    (st.openErr = true → (GetChecksum st now).1 = Outcome.fatal "open failed") ∧
    (st.atimeStatErr = true →
      (processFile st method kA now).1 = Outcome.fatal "atime stat failed") ∧
    (st.atimeStatErr = false → st.statErr = true →
      (processFile st method kA now).1 = Outcome.err "stat failed") := by
  refine ⟨?_, ?_, ?_, ?_, ?_, ?_, ?_, ?_⟩
  · intro h
    simp [GetPartialChecksum, h]
  · intro h1 h2 h3
    simp [GetPartialChecksum, h1, h2, h3]
  · intro h1 h2 h3 h4 h5
    have hbig : ¬ (st.data.length ≤ minPartialChecksumSize) := Nat.not_le.mpr h5
    have hcopy : ¬ (st.data.length < 0 + 1024 * 1024) := by
      simp only [minPartialChecksumSize] at h5
      omega
    simp [GetPartialChecksum, copyN, h1, h2, h3, h4, hbig, hcopy]
  · intro h1 h2
    simp [GetChecksum, h1, h2]
  · intro h1 h2
    simp [GetPartialChecksum, h1, h2]
  · intro h
    simp [GetChecksum, h]
  · intro h
    simp [processFile, h]
  · intro h1 h2
    simp [processFile, h1, h2]

/-- Witness for the amended C4 at concrete faulty files. -/
theorem checksum_error_propagation_witness :
    statFailFile.statErr = true ∧
    (GetPartialChecksum statFailFile 0).1 = Outcome.err "stat failed" ∧
    (processFile statFailFile CompareMethod.CmpPartial false 0).1
      = Outcome.err "stat failed" :=
  ⟨rfl, (checksum_error_propagation statFailFile 0 CompareMethod.CmpPartial false).1 rfl,
    (checksum_error_propagation statFailFile 0 CompareMethod.CmpPartial false).2.2.2.2.2.2.2
      rfl rfl⟩

/-- C6 counterexample: with checkKeepAtime set but keepATime false, so
that access-time preservation is not requested, a not-capable probe
still aborts the whole CompareFiles call with an error and no grouping,
although the identical call without the capability check succeeds. -/
theorem compareFiles_aborts_without_request :
    TestKeepAtime incapableProbe = Except.ok false ∧
    CompareFiles (fun _ => plainFile) (fun _ => incapableProbe) ["a"]
      CompareMethod.CmpSize false true 0
      = ([], GoExit.ret (some "cannot keep atime")) ∧
    CompareFiles (fun _ => plainFile) (fun _ => incapableProbe) ["a"]
      CompareMethod.CmpSize false false 0
      = ([[0]], GoExit.ret none) := by
  refine ⟨rfl, ?_, ?_⟩ <;> decide

/-- C6 amended: with checkKeepAtime set, the probe runs on the first
path of the list, and the whole operation aborts with an error and no
grouping exactly when the probe errs or reports not capable, regardless
of whether keepATime was requested; when the probe reports capable the
operation proceeds as without the check. -/
theorem compareFiles_capability_gate (env : String → FileSt) (probe : String → ProbeEnv)
    (f0 : String) (rest : List String) (method : CompareMethod)
    (kA : Bool) (now : Int) :
    (∀ e, TestKeepAtime (probe f0) = Except.error e →
      CompareFiles env probe (f0 :: rest) method kA true now
        = ([], GoExit.ret (some e))) ∧
    (TestKeepAtime (probe f0) = Except.ok false →
      CompareFiles env probe (f0 :: rest) method kA true now
        = ([], GoExit.ret (some "cannot keep atime"))) ∧
    (TestKeepAtime (probe f0) = Except.ok true →
      CompareFiles env probe (f0 :: rest) method kA true now
        = CompareFiles env probe (f0 :: rest) method kA false now) := by
  refine ⟨?_, ?_, ?_⟩ <;> intro e <;> intros <;> simp_all [CompareFiles]

/-- Witness for the amended C6 at a concrete incapable probe. -/
theorem compareFiles_capability_gate_witness :
    TestKeepAtime incapableProbe = Except.ok false ∧
    CompareFiles (fun _ => plainFile) (fun _ => incapableProbe) ["a", "b"]
      CompareMethod.CmpFull true true 7
      = ([], GoExit.ret (some "cannot keep atime")) :=
  ⟨rfl,
    (compareFiles_capability_gate (fun _ => plainFile) (fun _ => incapableProbe)
      "a" ["b"] CompareMethod.CmpFull true 7).2.1 rfl⟩

/-- A successful CompareFiles run is exactly a successful run of its
fingerprint-and-group loop. -/
theorem compareFiles_ret_none (env : String → FileSt) (probe : String → ProbeEnv)
    (fns : List String) (method : CompareMethod) (kA c : Bool) (now : Int)
    (groups : List (List Nat))
    (h : CompareFiles env probe fns method kA c now = (groups, GoExit.ret none)) :
    ∃ fis, compareLoop env method kA now fns 0 [] = Outcome.ok fis ∧
      groups = fis.map Prod.snd := by
  unfold CompareFiles runLoop at h
  repeat' split at h
  all_goals simp_all

/-- C3: a grouping returned by a completed CompareFiles run is a valid
partition of the index set: the concatenation of the groups is a
permutation of the range of indices, so every index lies in exactly one
group; groups are nonempty and strictly increasing, preserving input
order; all members of one group share the fingerprint; and members of
two distinct groups have different fingerprints. -/
theorem compareFiles_partition (env : String → FileSt) (probe : String → ProbeEnv)
    (fns : List String) (method : CompareMethod) (kA c : Bool) (now : Int)
    (groups : List (List Nat))
    (h : CompareFiles env probe fns method kA c now = (groups, GoExit.ret none)) :
    List.Perm groups.flatten (List.range fns.length) ∧
    (∀ g ∈ groups, g ≠ [] ∧ List.Chain' (fun a b => a < b) g) ∧
    (∀ g ∈ groups, ∀ i ∈ g, ∀ j ∈ g,
      fpAt env method kA now fns i = fpAt env method kA now fns j) ∧
    List.Pairwise (fun g1 g2 => ∀ i ∈ g1, ∀ j ∈ g2,
      fpAt env method kA now fns i ≠ fpAt env method kA now fns j) groups := by
  obtain ⟨fis, hloop, hgroups⟩ :=
    compareFiles_ret_none env probe fns method kA c now groups h
  subst hgroups
  have hF : ∀ t, t < fns.length →
      (fun j => fpAt env method kA now fns j) (0 + t)
        = (processFile (env (fns.getD t "")) method kA now).1 := by
    intro t ht
    simp [fpAt]
  have hinv0 : FisInv (fun j => fpAt env method kA now fns j) 0 [] := by
    constructor
    · simp [fisKeys]
    · simp
  obtain ⟨⟨hnodup, hentries⟩, hperm⟩ :=
    compareLoop_ok env method kA now fns 0 [] fis hloop _ hF hinv0
  refine ⟨?_, ?_, ?_, ?_⟩
  · simpa [fisIdx, ← List.range_eq_range'] using hperm
  · intro g hg
    obtain ⟨p, hp, rfl⟩ := List.mem_map.mp hg
    obtain ⟨hne, hch, _⟩ := hentries p hp
    exact ⟨hne, hch⟩
  · intro g hg i hi j hj
    obtain ⟨p, hp, rfl⟩ := List.mem_map.mp hg
    obtain ⟨_, _, hall⟩ := hentries p hp
    have hi2 := (hall i hi).2
    have hj2 := (hall j hj).2
    simp only at hi2 hj2
    rw [hi2, hj2]
  · rw [List.pairwise_map]
    have hkeys : List.Pairwise (fun p q : String × List Nat => p.1 ≠ q.1) fis :=
      List.pairwise_map.mp hnodup
    refine hkeys.imp_of_mem ?_
    intro p q hp hq hne i hi j hj
    obtain ⟨_, _, hallp⟩ := hentries p hp
    obtain ⟨_, _, hallq⟩ := hentries q hq
    have hi2 := (hallp i hi).2
    have hj2 := (hallq j hj).2
    simp only at hi2 hj2
    rw [hi2, hj2]
    intro hcontra
    exact hne (by injection hcontra)

/-- Witness for C3 at two concrete files grouped by size. -/
theorem compareFiles_partition_witness :
    CompareFiles (fun _ => plainFile) (fun _ => incapableProbe) ["a", "b"]
      CompareMethod.CmpSize false false 0 = ([[0, 1]], GoExit.ret none) ∧
    List.Perm ([[0, 1]] : List (List Nat)).flatten (List.range 2) :=
  ⟨by decide,
    (compareFiles_partition (fun _ => plainFile) (fun _ => incapableProbe) ["a", "b"]
      CompareMethod.CmpSize false false 0 [[0, 1]] (by decide)).1⟩

/-- C7: when fingerprinting the file at index k fails with a returned
error and all earlier files fingerprint fine, CompareFiles returns that
error together with an empty grouping, and the call returns the
identical result on just the first k plus one paths: the files after
the failing one contribute nothing and are never fingerprinted. -/
theorem compareFiles_stop_on_first_error (env : String → FileSt) (probe : String → ProbeEnv)
    (fns : List String) (method : CompareMethod) (kA : Bool) (now : Int)
    (k : Nat) (e : String)
    (hk : k < fns.length)
    (hbefore : ∀ j, j < k → ∃ s, fpAt env method kA now fns j = Outcome.ok s)
    (hfail : fpAt env method kA now fns k = Outcome.err e) :
    CompareFiles env probe fns method kA false now = ([], GoExit.ret (some e)) ∧
    CompareFiles env probe (fns.take (k + 1)) method kA false now
      = ([], GoExit.ret (some e)) := by
  have h := compareLoop_first_error env method kA now fns k 0 [] e hk hbefore hfail
  constructor
  · unfold CompareFiles runLoop
    simp [h.1]
  · unfold CompareFiles runLoop
    simp [h.2]

/-- Witness for C7 at a concrete failing first file. -/
theorem compareFiles_stop_on_first_error_witness :
    fpAt (fun _ => statFailFile) CompareMethod.CmpSize false 0 ["x"] 0
      = Outcome.err "stat failed" ∧
    CompareFiles (fun _ => statFailFile) (fun _ => incapableProbe) ["x"]
      CompareMethod.CmpSize false false 0 = ([], GoExit.ret (some "stat failed")) :=
  ⟨by decide,
    (compareFiles_stop_on_first_error (fun _ => statFailFile)
      (fun _ => incapableProbe) ["x"] CompareMethod.CmpSize false 0 0 "stat failed"
      (by decide) (fun j hj => absurd hj (Nat.not_lt_zero j)) (by decide)).1⟩

/-- C5: with keepATime set, processFile leaves the access and
modification times of the file exactly as they were before the call, on
every outcome: the deferred os.Chtimes restores the captured pair on
each function return, error returns included, and on the log.Fatal
exits, which skip deferred calls, no byte of the file has been read yet
so the access time was never disturbed. -/
theorem processFile_keepATime_restores (st : FileSt) (method : CompareMethod) (now : Int) :
    ((processFile st method true now).2).atimeFS = st.atimeFS ∧
    ((processFile st method true now).2).mtimeFS = st.mtimeFS := by
  unfold processFile
  by_cases h1 : st.atimeStatErr = true
  · simp [h1]
  by_cases h2 : st.statErr = true
  · simp [h1, h2]
  simp only [h1, h2, if_false, Bool.false_eq_true]
  cases method with
  | CmpSize => simp
  | CmpPartial =>
    obtain ⟨hm, hf, hp⟩ := getPartial_state st now
    rcases hg : GetPartialChecksum st now with ⟨out, st2⟩
    rw [hg] at hm hf hp
    simp only at hm hf hp
    cases out with
    | ok a => simp [hg]
    | err e => simp [hg]
    | fatal e =>
      simp only [hg]
      exact ⟨hf e rfl, hm⟩
    | panicked e => exact absurd rfl (hp e)
  | CmpFull =>
    obtain ⟨hm, hf, hp⟩ := getChecksum_state st now
    rcases hg : GetChecksum st now with ⟨out, st2⟩
    rw [hg] at hm hf hp
    simp only at hm hf hp
    cases out with
    | ok a => simp [hg]
    | err e => simp [hg]
    | fatal e =>
      simp only [hg]
      exact ⟨hf e rfl, hm⟩
    | panicked e => exact absurd rfl (hp e)

end Fcompare
